import Mathlib

/-!
Verification development for a URL-shortener redirect service (Go).

The service resolves request paths to destination URLs from a cached
shortcut mapping refreshed from an external tabular provider.  This file
gives a shallow embedding of the relevant functions of `main.go` and
`sheetprovider.go` and proves or refutes the stated properties.

Modelling conventions:
* Go `map[string]*url.URL` is modelled as `Store := String → Option URL`;
  the in-place mutation of a `*url.URL` reached through the map (as
  performed by `prepRedirect` on the cached entry) is modelled by
  returning an updated store alongside the result.
* Go `time.Time` / `time.Duration` are modelled as `Int` (nanoseconds);
  `time.Since(t)` at current time `now` is `now - t`.
* Library functions of `net/url` (`Parse`, `Values`, `ParseQuery`,
  `Encode`) are not part of the repository, so they are modelled from
  their documented behaviour restricted to the absolute
  `scheme://host[/path][?query]` URLs this service handles; percent
  escaping is modelled as the identity (all inputs considered here are
  unreserved ASCII).
* I/O performed by `sheetsProvider.Query` (reading credentials, building
  the Sheets client, fetching values) is modelled by an environment
  record carrying each step's outcome; `log.Fatalf` (process
  termination) is a distinct `ExecResult.fatal` outcome, different from
  returning an error value.
-/

set_option autoImplicit false

/-- A cell of a raw provider row, Go `interface{}`: either a string or
some non-string value (the code only distinguishes these two cases via
the `row[i].(string)` type assertions). -/
inductive Cell where
  | str (s : String)
  | other
deriving DecidableEq, Repr

/-- A raw provider row, Go `[]interface{}`. -/
abbrev Row := List Cell

/-- Model of the relevant fields of Go `net/url.URL`: `Scheme`, `Host`,
`Path`, `RawQuery` (the only fields this program reads or writes). -/
structure URL where
  scheme : String
  host : String
  path : String
  rawQuery : String
deriving DecidableEq, Repr

/-- Go `URL.String()` for an absolute URL with the fields we model:
`scheme://host` + path + (`?` + rawQuery when nonempty). -/
def URL.toString (u : URL) : String :=
  u.scheme ++ "://" ++ u.host ++ u.path ++
    (if u.rawQuery = "" then "" else "?" ++ u.rawQuery)

/-- Split a character list at the first occurrence of `sep`: the part
before it and, when `sep` occurs, the part after it. -/
def breakOnChar (sep : Char) : List Char → List Char × Option (List Char)
  | [] => ([], none)
  | c :: rest =>
    if c = sep then ([], some rest)
    else
      let p := breakOnChar sep rest
      (c :: p.1, p.2)

/-- Split a character list at the first occurrence of the three-letter
separator `://`; `none` when it does not occur. -/
def breakSchemeSep : List Char → Option (List Char × List Char)
  | [] => none
  | c :: rest =>
    if c = ':' then
      match rest with
      | c1 :: c2 :: rest2 =>
        if c1 = '/' ∧ c2 = '/' then some ([], rest2)
        else (breakSchemeSep rest).map (fun p => (c :: p.1, p.2))
      | _ => (breakSchemeSep rest).map (fun p => (c :: p.1, p.2))
    else (breakSchemeSep rest).map (fun p => (c :: p.1, p.2))

/-- Go `strings.Split(s, sep)` for a one-character separator (the only
separators this program splits on are `/`, `&`): always returns at
least one (possibly empty) piece. -/
def splitOnCharAux (sep : Char) : List Char → List Char → List String
  | [], acc => [String.mk acc.reverse]
  | c :: cs, acc =>
    if c = sep then String.mk acc.reverse :: splitOnCharAux sep cs []
    else splitOnCharAux sep cs (c :: acc)

/-- Go `strings.Split` on a one-character separator. -/
def splitOnChar (sep : Char) (s : String) : List String :=
  splitOnCharAux sep s.data []

/-- Go `strings.Join(elems, sep)`. -/
def strings_Join (sep : String) : List String → String
  | [] => ""
  | [s] => s
  | s :: s2 :: rest => s ++ sep ++ strings_Join sep (s2 :: rest)

/-- Go `strings.ToLower` (ASCII case folding suffices for the shortcut
strings considered here). -/
def strings_ToLower (s : String) : String :=
  String.mk (s.data.map Char.toLower)

/-- Go `strings.TrimPrefix(s, "/")`: remove one leading `/` if present. -/
def trimLeadingSlash (s : String) : String :=
  match s.data with
  | c :: rest => if c = '/' then String.mk rest else s
  | [] => s

/-- Go `strings.HasSuffix(s, "/")`. -/
def hasSuffixSlash (s : String) : Bool :=
  match s.data.getLast? with
  | some c => c = '/'
  | none => false

/-- Model of Go `net/url.Parse` restricted to absolute URLs of the form
`scheme://host[/path...][?query]` (the shapes stored in the shortcut
sheet).  Strings containing ASCII control characters are rejected, as
`net/url.Parse` rejects them; strings without a `://` separator are
treated as unparsable in this model. -/
def url_Parse (s : String) : Option URL :=
  if s.data.any (fun c => c.toNat < 32 || c.toNat == 127) then none
  else
    match breakSchemeSep s.data with
    | none => none
    | some (schChars, restChars) =>
      if schChars.isEmpty then none
      else
        let hq := breakOnChar '?' restChars
        let rawQuery := match hq.2 with | some q => String.mk q | none => ""
        let hp := breakOnChar '/' hq.1
        let host := String.mk hp.1
        let path := match hp.2 with | some p => "/" ++ String.mk p | none => ""
        some ⟨String.mk schChars, host, path, rawQuery⟩

/-- The shortcut mapping, Go `type URLMap map[string]*url.URL`; absent
keys read as `none` (Go's `nil` zero value). -/
abbrev Store := String → Option URL

/-- The empty map, Go `make(URLMap)`. -/
def emptyStore : Store := fun _ => none

/-- Go map assignment `m[k] = u`. -/
def updateStore (m : Store) (k : String) (u : URL) : Store :=
  fun q => if q = k then some u else m q

/-- Model of Go `url.Values` (`map[string][]string`), as an association
list with pairwise-distinct keys (the parsing and adding operations
below preserve that). -/
abbrev Values := List (String × List String)

/-- Go `Values.Add(k, v)`: append `v` to the values of key `k`. -/
def Values.add (vs : Values) (k v : String) : Values :=
  match vs with
  | [] => [(k, [v])]
  | (k0, vals) :: rest =>
    if k0 = k then (k0, vals ++ [v]) :: rest
    else (k0, vals) :: Values.add rest k v

/-- Go `Values.Get(k)`: first value for `k`, or `""` if absent. -/
def Values.get (vs : Values) (k : String) : String :=
  match vs with
  | [] => ""
  | (k0, vals) :: rest =>
    if k0 = k then
      match vals with
      | [] => ""
      | v :: _ => v
    else Values.get rest k

/-- Model of Go `url.ParseQuery`: split on `&`, skip empty components,
split each component at the first `=` (missing `=` gives an empty
value); unescaping is the identity in this model. -/
def parseQuery (s : String) : Values :=
  (splitOnChar '&' s).foldl
    (fun acc comp =>
      if comp = "" then acc
      else
        let kv := breakOnChar '=' comp.data
        let v := match kv.2 with | some rest => String.mk rest | none => ""
        Values.add acc (String.mk kv.1) v)
    []

/-- Insert an entry into a key-sorted `Values` list (helper for the
key-sorting performed by Go `Values.Encode`). -/
def insertByKey (p : String × List String) : Values → Values
  | [] => [p]
  | q :: rest => if p.1 < q.1 then p :: q :: rest else q :: insertByKey p rest

/-- Sort a `Values` list by key (Go `Values.Encode` emits keys in sorted
order). -/
def sortByKey (vs : Values) : Values :=
  vs.foldr insertByKey []

/-- Go `Values.Encode()`: keys in sorted order, each value emitted as
`k=v`, joined with `&`; escaping is the identity in this model. -/
def Values.encode (vs : Values) : String :=
  strings_Join "&"
    ((sortByKey vs).foldr
      (fun p acc => (p.2.map (fun v => p.1 ++ "=" ++ v)) ++ acc) [])

/-- Go `base.Query()`: parse the URL's raw query string. -/
def URL.query (u : URL) : Values :=
  parseQuery u.rawQuery

/-- `urlMap` (main.go:214-248), the body run for one row: rows with
fewer than two cells are skipped; the first two cells must be non-empty
strings; the shortcut is lowercased; the destination must parse as a
URL; the entry is then written into the map (overwriting any previous
binding for the same key). -/
def processRow (out : Store) (row : Row) : Store :=
  if row.length < 2 then out
  else
    match row.get? 0 with
    | some (Cell.str k) =>
      if k = "" then out
      else
        match row.get? 1 with
        | some (Cell.str v) =>
          if v = "" then out
          else
            let k2 := strings_ToLower k
            match url_Parse v with
            | none => out
            | some u => updateStore out k2 u
        | _ => out
    | _ => out

/-- `urlMap` (main.go:214-248): fold `processRow` over the raw rows in
order, starting from the empty map. -/
def urlMap (rows : List Row) : Store :=
  rows.foldl processRow emptyStore

/-- Outcome of a resolution attempt (`findRedirect`, main.go:174-194):
a matched destination, an explicit no-match (`return nil, nil`), a
propagated cache error, or a run-time panic (out-of-range slice index,
which in Go aborts the request). -/
inductive FindResult where
  | found (u : URL)
  | notFound
  | fail (e : String)
  | crash
deriving DecidableEq, Repr

/-- `prepRedirect` (main.go:196-212).  If `addPath` is nonempty it is
appended to the base path, inserting a `/` when the base path does not
already end in one.  Then `qs` is built by adding the first value of
each incoming query key to the base's parsed query — but, exactly as in
the source, the raw query written back is `base.Query().Encode()` (the
re-encoding of the base's own query), not `qs`. -/
def prepRedirect (base : URL) (addPath : String) (query : Values) : URL :=
  let base1 :=
    if addPath ≠ "" then
      let p := if hasSuffixSlash base.path then base.path else base.path ++ "/"
      { base with path := p ++ addPath }
    else base
  let qs := query.foldl (fun acc p => Values.add acc p.1 (Values.get query p.1))
              (URL.query base1)
  let _ := qs
  { base1 with rawQuery := Values.encode (URL.query base1) }

/-- The loop of `findRedirect` (main.go:180-191), with the segment
slice carried in REVERSED order so the recursion is structural: the
slice `segments` of the source is `revSegments.reverse` here.  While
segments remain: join them with `/` and look the result up; on a hit,
return `prepRedirect` of the stored URL (and, since Go mutates the
cached `*url.URL` in place, the store updated at the matched key).  On
a miss the source truncates the slice by one
(`segments = segments[:len(segments)-1]`, here: drop the head of the
reversed list) and THEN prepends `segments[len(segments)-1]` — the last
element of the already-truncated slice, i.e. the head of the reversed
tail — to `discard`; when the truncated slice is empty that index is
out of range, a run-time panic. -/
def findRedirectLoop (db : Store) (reqQuery : Values) :
    (revSegments : List String) → (discard : List String) → FindResult × Store
  | [], _ => (FindResult.notFound, db)
  | s :: revRest, discard =>
    let query := strings_Join "/" (s :: revRest).reverse
    match db query with
    | some v =>
      let v2 := prepRedirect v (strings_Join "/" discard) reqQuery
      (FindResult.found v2, updateStore db query v2)
    | none =>
      match revRest with
      | lastSeg :: _ => findRedirectLoop db reqQuery revRest (lastSeg :: discard)
      | [] => (FindResult.crash, db)

/-- `findRedirect` (main.go:174-194) against a store (the cache read
`s.db.Get` modelled as a direct lookup, i.e. the refresh inside `Get`
succeeded or was a fresh no-op): strip one leading `/`, split on `/`,
run the matching loop (which carries the segments reversed).  The
second component is the store after the call (Go mutates the matched
cached URL in place). -/
def findRedirect (db : Store) (reqPath : String) (reqQuery : Values) :
    FindResult × Store :=
  let path := trimLeadingSlash reqPath
  findRedirectLoop db reqQuery (splitOnChar '/' path).reverse []

/-- `cachedURLMap` (main.go:117-123): the cached mapping, the time of
the last successful refresh, and the TTL.  Times and durations are
`Int` nanoseconds. -/
structure cachedURLMap where
  v : Store
  lastUpdate : Int
  ttl : Int

/-- `cachedURLMap.Refresh` (main.go:135-152), instrumented with the
number of provider queries performed (0 or 1).  `queryResult` is the
outcome the provider would return if queried at this moment.  Within
the TTL (`time.Since(c.lastUpdate) <= c.ttl`) it is a no-op success;
otherwise the provider is queried: on error the error is returned and
the state kept; on success the mapping is rebuilt by `urlMap` and
`lastUpdate` set to the current time. -/
def cachedURLMap.Refresh (c : cachedURLMap) (now : Int)
    (queryResult : Except String (List Row)) :
    Except String Unit × cachedURLMap × Nat :=
  if now - c.lastUpdate ≤ c.ttl then (Except.ok (), c, 0)
  else
    match queryResult with
    | Except.error e => (Except.error e, c, 1)
    | Except.ok rows =>
      (Except.ok (), { c with v := urlMap rows, lastUpdate := now }, 1)

/-- `cachedURLMap.Get` (main.go:125-133): runs `Refresh` and, if it
errored, returns `(nil, err)`; otherwise returns the map entry for the
query (`none` when absent) without error.  Also returns the cache state
after the call. -/
def cachedURLMap.Get (c : cachedURLMap) (now : Int)
    (queryResult : Except String (List Row)) (query : String) :
    Except String (Option URL) × cachedURLMap :=
  match cachedURLMap.Refresh c now queryResult with
  | (Except.error e, c2, _) => (Except.error e, c2)
  | (Except.ok _, c2, _) => (Except.ok (c2.v query), c2)

/-- Outcome of running a code path that may terminate the process:
`fatal` models Go `log.Fatalf` (process exit), `err` an error returned
to the caller, `ok` a normal result. -/
inductive ExecResult (α : Type) where
  | fatal (msg : String)
  | err (msg : String)
  | ok (a : α)
deriving DecidableEq, Repr

/-- `sheetsProvider` (sheetprovider.go:13-16). -/
structure sheetsProvider where
  googleSheetsID : String
  sheetName : String

/-- Outcomes of the external I/O steps performed inside
`sheetsProvider.Query` (and the `getClient` flow it calls): reading
`credentials.json`, parsing it into an OAuth config, building the
Sheets service, and the `Spreadsheets.Values.Get(...).Do()` fetch
itself (which fails on network or authorization problems). -/
structure SheetsEnv where
  readCredentials : Except String Unit
  configFromJSON : Except String Unit
  newService : Except String Unit
  valuesGet : Except String (List Row)

/-- `sheetsProvider.Query` (sheetprovider.go:18-54).  Missing
configuration is returned as an error value; every subsequent failing
step — including a network or auth failure of the sheet fetch — goes
through `log.Fatalf`, modelled as `ExecResult.fatal`. -/
def sheetsProvider.Query (s : sheetsProvider) (env : SheetsEnv) :
    ExecResult (List Row) :=
  if s.googleSheetsID = "" then ExecResult.err "GOOGLE_SHEET_ID not set"
  else if s.sheetName = "" then ExecResult.err "SHEET_NAME not set"
  else
    match env.readCredentials with
    | Except.error e => ExecResult.fatal ("Unable to read client secret file: " ++ e)
    | Except.ok _ =>
      match env.configFromJSON with
      | Except.error e =>
        ExecResult.fatal ("Unable to parse client secret file to config: " ++ e)
      | Except.ok _ =>
        match env.newService with
        | Except.error e => ExecResult.fatal ("Unable to retrieve Sheets client: " ++ e)
        | Except.ok _ =>
          match env.valuesGet with
          | Except.error e => ExecResult.fatal ("Unable to retrieve data from sheet: " ++ e)
          | Except.ok rows => ExecResult.ok rows

/-- Spec-side description of a valid raw row (§3 / §4.1 of the spec):
at least two columns, the first two being non-empty strings, and the
destination parseable as a URL; yields the lowercased shortcut and the
parsed URL. -/
def validEntry (row : Row) : Option (String × URL) :=
  match row with
  | Cell.str k :: Cell.str v :: _ =>
    if k = "" ∨ v = "" then none
    else (url_Parse v).map (fun u => (strings_ToLower k, u))
  | _ => none

/-- Spec-side description of the mapping contents: the destination of
the last valid row whose lowercased shortcut equals `k`, if any. -/
def lastValidDest (rows : List Row) (k : String) : Option URL :=
  (((rows.filterMap validEntry).filter (fun e => e.1 = k)).getLast?).map
    (fun e => e.2)

/-- C1: the spec claims that a request path matching no shortcut at any
prefix depth resolves to an absent result without error.  In the code
the no-match `return nil, nil` is unreachable: once the single-segment
lookup misses, the slice is truncated to length 0 and
`segments[len(segments)-1]` indexes it at -1, a run-time panic.  This
holds for a one-segment path, a multi-segment path, and the empty path
against a mapping with no empty-string shortcut. -/
theorem C1_noMatch_crashes :
    (findRedirect emptyStore "nosuch" []).1 = FindResult.crash ∧
    (findRedirect emptyStore "/a/b" []).1 = FindResult.crash ∧
    (findRedirect emptyStore "" []).1 = FindResult.crash ∧
    (findRedirect emptyStore "nosuch" []).1 ≠ FindResult.notFound := by
  refine ⟨rfl, rfl, rfl, ?_⟩
  intro h
  simp [findRedirect, findRedirectLoop, trimLeadingSlash, splitOnChar,
    splitOnCharAux, emptyStore] at h

/-- C2: the spec claims the discarded suffix appended to the matched
destination is exactly the unmatched trailing segments; resolving
`a/b/c` against `{a/b ↦ https://example.com/x}` should give
`https://example.com/x/c`.  The code truncates `segments` before
reading `segments[len(segments)-1]`, so it discards `b` — a segment of
the matched shortcut — instead of `c`, producing
`https://example.com/x/b`. -/
theorem C2_wrong_suffix_appended :
    (findRedirect (updateStore emptyStore "a/b" ⟨"https", "example.com", "/x", ""⟩)
        "a/b/c" []).1
      = FindResult.found ⟨"https", "example.com", "/x/b", ""⟩ ∧
    URL.toString ⟨"https", "example.com", "/x/b", ""⟩ = "https://example.com/x/b" ∧
    URL.toString ⟨"https", "example.com", "/x/b", ""⟩ ≠ "https://example.com/x/c" := by
  exact ⟨rfl, rfl, by decide⟩

/-- C3: the spec claims resolution never modifies the cached mapping
and that resolving the same path twice against the same mapping gives
the same result.  `prepRedirect` mutates the `*url.URL` stored in the
cache in place (`base.Path += ...`), so the first resolution of `a/b`
against `{a ↦ https://example.com/x}` grows the cached path to `/x/a`
and the second resolution returns `https://example.com/x/a/a`. -/
theorem C3_resolution_mutates_cache :
    (findRedirect (updateStore emptyStore "a" ⟨"https", "example.com", "/x", ""⟩)
        "a/b" []).1
      = FindResult.found ⟨"https", "example.com", "/x/a", ""⟩ ∧
    ((findRedirect (updateStore emptyStore "a" ⟨"https", "example.com", "/x", ""⟩)
        "a/b" []).2) "a"
      = some ⟨"https", "example.com", "/x/a", ""⟩ ∧
    (updateStore emptyStore "a" ⟨"https", "example.com", "/x", ""⟩) "a"
      = some ⟨"https", "example.com", "/x", ""⟩ ∧
    (findRedirect
        ((findRedirect (updateStore emptyStore "a" ⟨"https", "example.com", "/x", ""⟩)
            "a/b" []).2)
        "a/b" []).1
      = FindResult.found ⟨"https", "example.com", "/x/a/a", ""⟩ ∧
    FindResult.found (URL.mk "https" "example.com" "/x/a" "")
      ≠ FindResult.found ⟨"https", "example.com", "/x/a/a", ""⟩ := by
  exact ⟨rfl, rfl, rfl, rfl, by decide⟩

/-- C4: the spec claims incoming query parameters are merged into the
destination's query; resolving `a/b/c` against
`{a ↦ https://example.com}` with query `q=1` should give
`https://example.com/b/c?q=1`.  The code builds the merged `qs` but
then assigns `base.RawQuery = base.Query().Encode()` — re-encoding the
base's own (empty) query — so the incoming parameters are dropped, and
the discard bug appends `a/b` instead of `b/c`: the result is
`https://example.com/a/b` with no query string. -/
theorem C4_query_params_dropped :
    (findRedirect (updateStore emptyStore "a" ⟨"https", "example.com", "", ""⟩)
        "a/b/c" (parseQuery "q=1")).1
      = FindResult.found ⟨"https", "example.com", "/a/b", ""⟩ ∧
    URL.toString ⟨"https", "example.com", "/a/b", ""⟩ = "https://example.com/a/b" ∧
    URL.toString ⟨"https", "example.com", "/a/b", ""⟩
      ≠ "https://example.com/b/c?q=1" := by
  exact ⟨rfl, rfl, by decide⟩

/-- C5: the spec claims every transient provider failure (network or
auth failure during the sheet fetch) is surfaced as an error value from
`Query`.  In the code only the two missing-configuration checks return
error values; a failure of the fetch itself goes through `log.Fatalf`,
which terminates the process — modelled as `ExecResult.fatal`, never
`ExecResult.err`. -/
theorem C5_network_failure_is_fatal :
    sheetsProvider.Query ⟨"sheet-id", "links"⟩
        ⟨Except.ok (), Except.ok (), Except.ok (), Except.error "network failure"⟩
      = ExecResult.fatal "Unable to retrieve data from sheet: network failure" ∧
    ∀ e : String,
      sheetsProvider.Query ⟨"sheet-id", "links"⟩
          ⟨Except.ok (), Except.ok (), Except.ok (), Except.error "network failure"⟩
        ≠ ExecResult.err e := by
  refine ⟨rfl, fun e h => ?_⟩
  simp [sheetsProvider.Query] at h


/-- C6 counterexample: with a nonempty cached mapping
(`go ↦ https://go.dev/` cached at time 0, ttl 5) and an expired TTL
(now = 10), a `Get` during which the provider query fails returns the
error, not the previously cached result, refuting the claim that `Get`
"still returns the previously cached result rather than failing". -/
theorem C6_get_fails_on_refresh_error :
    (cachedURLMap.Get
        ⟨updateStore emptyStore "go" ⟨"https", "go.dev", "/", ""⟩, 0, 5⟩
        10 (Except.error "network failure") "go").1
      = Except.error "network failure" ∧
    (Except.error "network failure" : Except String (Option URL))
      ≠ Except.ok (some ⟨"https", "go.dev", "/", ""⟩) :=
  ⟨rfl, fun h => Except.noConfusion h⟩

/-- C6 amended: when a refresh attempt's provider query fails, the
previously cached mapping is retained unchanged (the whole cache state
is returned as it was), but `Get` returns the error rather than the
cached result; `Get` serves the cached mapping while the TTL has not
elapsed, and the freshly built mapping once a refresh succeeds. -/
theorem C6_stale_mapping_retained_but_error_returned :
    (∀ (c : cachedURLMap) (now : Int) (e key : String),
        c.ttl < now - c.lastUpdate →
        cachedURLMap.Get c now (Except.error e) key = (Except.error e, c)) ∧
    (∀ (c : cachedURLMap) (now : Int) (qr : Except String (List Row)) (key : String),
        now - c.lastUpdate ≤ c.ttl →
        cachedURLMap.Get c now qr key = (Except.ok (c.v key), c)) ∧
    (∀ (c : cachedURLMap) (now : Int) (rows : List Row) (key : String),
        c.ttl < now - c.lastUpdate →
        cachedURLMap.Get c now (Except.ok rows) key
          = (Except.ok (urlMap rows key),
             { c with v := urlMap rows, lastUpdate := now })) := by
  refine ⟨fun c now e key h => ?_, fun c now qr key h => ?_, fun c now rows key h => ?_⟩
  · simp only [cachedURLMap.Get, cachedURLMap.Refresh, if_neg (not_le.mpr h)]
  · simp only [cachedURLMap.Get, cachedURLMap.Refresh, if_pos h]
  · simp only [cachedURLMap.Get, cachedURLMap.Refresh, if_neg (not_le.mpr h)]

/-- Witness for the amended C6 at concrete inputs. -/
theorem C6_stale_mapping_retained_but_error_returned_witness :
    cachedURLMap.Get ⟨emptyStore, 0, 5⟩ 10 (Except.error "boom") "k"
      = (Except.error "boom", ⟨emptyStore, 0, 5⟩) ∧
    cachedURLMap.Get ⟨emptyStore, 0, 5⟩ 3 (Except.error "boom") "k"
      = (Except.ok (emptyStore "k"), ⟨emptyStore, 0, 5⟩) :=
  ⟨C6_stale_mapping_retained_but_error_returned.1 ⟨emptyStore, 0, 5⟩ 10 "boom" "k"
      (by decide),
   C6_stale_mapping_retained_but_error_returned.2.1 ⟨emptyStore, 0, 5⟩ 3
      (Except.error "boom") "k" (by decide)⟩

/-- C7: `Refresh` within the TTL (`now - lastUpdate ≤ ttl`) is a no-op
success performing no provider query and leaving the state unchanged;
after the TTL has elapsed it performs a provider query; and a
successful refresh followed by a second `Refresh` within one TTL of it
performs exactly one provider query in total. -/
theorem C7_refresh_ttl_single_query :
    (∀ (c : cachedURLMap) (now : Int) (qr : Except String (List Row)),
        now - c.lastUpdate ≤ c.ttl →
        cachedURLMap.Refresh c now qr = (Except.ok (), c, 0)) ∧
    (∀ (c : cachedURLMap) (now : Int) (qr : Except String (List Row)),
        c.ttl < now - c.lastUpdate →
        (cachedURLMap.Refresh c now qr).2.2 = 1) ∧
    (∀ (c : cachedURLMap) (now1 now2 : Int) (rows : List Row)
        (qr2 : Except String (List Row)),
        c.ttl < now1 - c.lastUpdate → now2 - now1 ≤ c.ttl →
        (cachedURLMap.Refresh c now1 (Except.ok rows)).2.2
          + (cachedURLMap.Refresh
              (cachedURLMap.Refresh c now1 (Except.ok rows)).2.1 now2 qr2).2.2
          = 1) := by
  refine ⟨fun c now qr h => ?_, fun c now qr h => ?_,
    fun c now1 now2 rows qr2 h1 h2 => ?_⟩
  · simp only [cachedURLMap.Refresh, if_pos h]
  · rcases qr with e | rows <;>
      simp only [cachedURLMap.Refresh, if_neg (not_le.mpr h)]
  · simp only [cachedURLMap.Refresh, if_neg (not_le.mpr h1)]
    simp only [if_pos h2]

/-- Witness for C7 at concrete inputs: ttl 5, last update at 0; a call
at time 3 is a no-op, a call at time 10 queries, and a successful call
at 10 followed by one at 12 queries exactly once. -/
theorem C7_refresh_ttl_single_query_witness :
    cachedURLMap.Refresh ⟨emptyStore, 0, 5⟩ 3 (Except.ok [])
      = (Except.ok (), ⟨emptyStore, 0, 5⟩, 0) ∧
    (cachedURLMap.Refresh ⟨emptyStore, 0, 5⟩ 10 (Except.ok [])).2.2 = 1 ∧
    (cachedURLMap.Refresh ⟨emptyStore, 0, 5⟩ 10 (Except.ok [])).2.2
      + (cachedURLMap.Refresh
          (cachedURLMap.Refresh ⟨emptyStore, 0, 5⟩ 10 (Except.ok [])).2.1 12
          (Except.ok [])).2.2
      = 1 :=
  ⟨C7_refresh_ttl_single_query.1 ⟨emptyStore, 0, 5⟩ 3 (Except.ok []) (by decide),
   C7_refresh_ttl_single_query.2.1 ⟨emptyStore, 0, 5⟩ 10 (Except.ok []) (by decide),
   C7_refresh_ttl_single_query.2.2 ⟨emptyStore, 0, 5⟩ 10 12 [] (Except.ok [])
     (by decide) (by decide)⟩

/-- C8: when the provider query inside `Refresh` returns an error (the
TTL having elapsed, so the query is actually made), `Refresh` returns
that error and the cache state — mapping and `lastUpdate` alike — is
returned exactly as it was. -/
theorem C8_refresh_error_leaves_state :
    ∀ (c : cachedURLMap) (now : Int) (e : String),
      c.ttl < now - c.lastUpdate →
      cachedURLMap.Refresh c now (Except.error e) = (Except.error e, c, 1) := by
  intro c now e h
  simp only [cachedURLMap.Refresh, if_neg (not_le.mpr h)]

/-- Witness for C8 at concrete inputs. -/
theorem C8_refresh_error_leaves_state_witness :
    cachedURLMap.Refresh ⟨emptyStore, 0, 5⟩ 10 (Except.error "boom")
      = (Except.error "boom", ⟨emptyStore, 0, 5⟩, 1) :=
  C8_refresh_error_leaves_state ⟨emptyStore, 0, 5⟩ 10 "boom" (by decide)


/-- Helper for C9: the effect of one `urlMap` loop iteration on key
`k`, phrased through the spec-side `validEntry`. -/
theorem processRow_eq (out : Store) (row : Row) (k : String) :
    processRow out row k
      = match validEntry row with
        | some e => if k = e.1 then some e.2 else out k
        | none => out k := by
  match row with
  | [] => rfl
  | [c] => cases c <;> rfl
  | c0 :: c1 :: rest =>
    have hlen : ¬ (rest.length + 1 + 1 < 2) := by omega
    cases c0 with
    | other => simp [processRow, validEntry, hlen]
    | str k0 =>
      cases c1 with
      | other =>
        by_cases hk : k0 = "" <;> simp [processRow, validEntry, hlen, hk]
      | str v0 =>
        by_cases hk : k0 = ""
        · simp [processRow, validEntry, hlen, hk]
        · by_cases hv : v0 = ""
          · simp [processRow, validEntry, hlen, hk, hv]
          · cases hp : url_Parse v0 with
            | none => simp [processRow, validEntry, hlen, hk, hv, hp]
            | some u => simp [processRow, validEntry, hlen, hk, hv, hp, updateStore]

/-- Helper for C9: peeling one row off `lastValidDest`. -/
theorem lastValidDest_cons (r : Row) (rs : List Row) (k : String) :
    lastValidDest (r :: rs) k
      = match validEntry r with
        | some e =>
          if e.1 = k then
            match lastValidDest rs k with
            | some u => some u
            | none => some e.2
          else lastValidDest rs k
        | none => lastValidDest rs k := by
  cases hv : validEntry r with
  | none =>
    simp only [hv]
    unfold lastValidDest
    rw [List.filterMap_cons, hv]
  | some e =>
    have hfm : List.filterMap validEntry (r :: rs) = e :: List.filterMap validEntry rs := by
      rw [List.filterMap_cons, hv]
    by_cases he : e.1 = k
    · have hfl : (List.filterMap validEntry (r :: rs)).filter (fun e => e.1 = k)
          = e :: (List.filterMap validEntry rs).filter (fun e => e.1 = k) := by
        rw [hfm, List.filter_cons, if_pos (by simp [he])]
      simp only [hv]
      rw [if_pos he]
      unfold lastValidDest
      rw [hfl, List.getLast?_cons]
      cases hM : ((List.filterMap validEntry rs).filter (fun e => e.1 = k)).getLast? with
      | none => rfl
      | some e2 => rfl
    · have hfl : (List.filterMap validEntry (r :: rs)).filter (fun e => e.1 = k)
          = (List.filterMap validEntry rs).filter (fun e => e.1 = k) := by
        rw [hfm, List.filter_cons, if_neg (by simp [he])]
      simp only [hv]
      rw [if_neg he]
      unfold lastValidDest
      rw [hfl]

/-- Helper for C9: the `urlMap` fold, run from any accumulator,
computes the last valid binding for each key, falling back to the
accumulator. -/
theorem foldl_processRow_eq (rows : List Row) (out : Store) (k : String) :
    List.foldl processRow out rows k
      = match lastValidDest rows k with
        | some u => some u
        | none => out k := by
  induction rows generalizing out with
  | nil => simp [lastValidDest]
  | cons r rs ih =>
    rw [List.foldl_cons, ih (processRow out r), lastValidDest_cons]
    rw [processRow_eq]
    cases hv : validEntry r with
    | none => rfl
    | some e =>
      dsimp only
      by_cases he : e.1 = k
      · rw [if_pos he]
        cases hd : lastValidDest rs k with
        | none => dsimp only; rw [if_pos he.symm]
        | some u => rfl
      · rw [if_neg he]
        cases hd : lastValidDest rs k with
        | none => dsimp only; rw [if_neg (fun h => he h.symm)]
        | some u => rfl

/-- C9: for every sequence of raw rows and every key, the mapping
built by `urlMap` holds exactly the destination of the last valid row
(at least two columns, non-empty string shortcut and value, parseable
URL) whose lowercased shortcut equals the key — so valid rows are
ingested under their lowercased shortcut, invalid rows are skipped
without failing, and for case-insensitively duplicate shortcuts the
last row wins. -/
theorem C9_urlMap_contents :
    ∀ (rows : List Row) (k : String), urlMap rows k = lastValidDest rows k := by
  intro rows k
  unfold urlMap
  rw [foldl_processRow_eq]
  cases hd : lastValidDest rows k with
  | none => rfl
  | some u => rfl

/-- C10 counterexample: a row with shortcut `GIT` is ingested under the
lowercased key `git`, but resolution looks the request path up
verbatim, so the case-variant request path `GIT` does not find the
stored destination — it takes the miss path (and crashes on the
truncated-slice index) instead of resolving to the destination. -/
theorem C10_uppercase_request_not_found :
    urlMap [[Cell.str "GIT", Cell.str "https://github.com/denizyoldas"]] "git"
      = some ⟨"https", "github.com", "/denizyoldas", ""⟩ ∧
    (findRedirect (urlMap [[Cell.str "GIT", Cell.str "https://github.com/denizyoldas"]])
        "GIT" []).1
      = FindResult.crash ∧
    ∀ u : URL, FindResult.crash ≠ FindResult.found u :=
  ⟨rfl, rfl, fun _ h => FindResult.noConfusion h⟩

/-- Appending strings is appending their character lists. -/
theorem mk_append (xs ys : List Char) :
    String.mk xs ++ String.mk ys = String.mk (xs ++ ys) := rfl

/-- Helper for C10: `strings.Split` never yields an empty list of
pieces (there is always at least the final, possibly empty, piece). -/
theorem splitOnCharAux_ne_nil (sep : Char) (cs acc : List Char) :
    splitOnCharAux sep cs acc ≠ [] := by
  induction cs generalizing acc with
  | nil => simp [splitOnCharAux]
  | cons c cs ih =>
    by_cases h : c = sep
    · simp [splitOnCharAux, h]
    · simp only [splitOnCharAux, if_neg h]
      exact ih (c :: acc)

/-- Unfolding `strings.Join` on a list with at least two pieces. -/
theorem strings_Join_cons (sep s : String) (l : List String) (h : l ≠ []) :
    strings_Join sep (s :: l) = s ++ sep ++ strings_Join sep l := by
  cases l with
  | nil => exact absurd rfl h
  | cons a l2 => rfl

/-- Helper for C10: joining the pieces produced by the splitting loop
restores the pending accumulator followed by the remaining input. -/
theorem strings_Join_splitOnCharAux (sep : Char) (cs acc : List Char) :
    strings_Join (String.mk [sep]) (splitOnCharAux sep cs acc)
      = String.mk (acc.reverse ++ cs) := by
  induction cs generalizing acc with
  | nil => simp [splitOnCharAux, strings_Join]
  | cons c cs ih =>
    by_cases h : c = sep
    · rw [splitOnCharAux, if_pos h,
        strings_Join_cons _ _ _ (splitOnCharAux_ne_nil sep cs []), ih []]
      subst h
      rw [mk_append, mk_append]
      simp
    · rw [splitOnCharAux, if_neg h, ih (c :: acc)]
      simp

/-- Helper for C10: `strings.Join(strings.Split(s, "/"), "/") = s` —
the query tried at full depth by `findRedirect` is the stripped request
path itself, verbatim. -/
theorem strings_Join_splitSlash (s : String) :
    strings_Join "/" (splitOnChar '/' s) = s := by
  have h := strings_Join_splitOnCharAux '/' s.data []
  simpa [splitOnChar] using h

/-- Helper for C10: when the joined current segments are a key of the
store, the loop stops at once and returns `prepRedirect` of the stored
URL with the current discard suffix. -/
theorem findRedirectLoop_head_match (db : Store) (q : Values) (s : String)
    (revRest discard : List String) (u : URL)
    (h : db (strings_Join "/" ((s :: revRest).reverse)) = some u) :
    findRedirectLoop db q (s :: revRest) discard
      = (FindResult.found (prepRedirect u (strings_Join "/" discard) q),
         updateStore db (strings_Join "/" ((s :: revRest).reverse))
           (prepRedirect u (strings_Join "/" discard) q)) := by
  simp only [findRedirectLoop, h]

/-- Lowercasing a character twice is the same as doing it once. -/
theorem charToLower_idem (c : Char) :
    Char.toLower (Char.toLower c) = Char.toLower c := by
  unfold Char.toLower
  by_cases h : c.toNat ≥ 65 ∧ c.toNat ≤ 90
  · rw [if_pos h]
    have hv : (Char.ofNat (c.toNat + 32)).toNat = c.toNat + 32 := by
      have h91 : c.toNat < 91 := by omega
      exact (by decide :
        ∀ n : Nat, n < 91 → (65 ≤ n → (Char.ofNat (n+32)).toNat = n + 32))
        c.toNat h91 h.1
    rw [if_neg]
    rw [hv]
    omega
  · rw [if_neg h, if_neg h]

/-- Lowercasing a string twice is the same as doing it once. -/
theorem strings_ToLower_idem (s : String) :
    strings_ToLower (strings_ToLower s) = strings_ToLower s := by
  unfold strings_ToLower
  simp only [List.map_map]
  have hf : Char.toLower ∘ Char.toLower = Char.toLower := funext charToLower_idem
  rw [hf]

/-- Helper for C10: every key produced by a valid row is already
lowercase (it is the lowercased shortcut). -/
theorem validEntry_key_lower (row : Row) (e : String × URL)
    (h : validEntry row = some e) : strings_ToLower e.1 = e.1 := by
  match row with
  | [] => exact absurd h (by simp [validEntry])
  | [c] => cases c <;> exact absurd h (by simp [validEntry])
  | Cell.other :: c1 :: rest => exact absurd h (by simp [validEntry])
  | Cell.str k :: Cell.other :: rest => exact absurd h (by simp [validEntry])
  | Cell.str k :: Cell.str v :: rest =>
    simp only [validEntry] at h
    by_cases hkv : k = "" ∨ v = ""
    · rw [if_pos hkv] at h
      exact absurd h (by simp)
    · rw [if_neg hkv] at h
      cases hp : url_Parse v with
      | none => rw [hp] at h; exact absurd h (by simp)
      | some u =>
        rw [hp] at h
        simp only [Option.map_some'] at h
        injection h with h2
        rw [← h2]
        exact strings_ToLower_idem k

/-- Helper for C10: a string that is not its own lowercase form is
never a key of a mapping built by `urlMap`, whatever the rows. -/
theorem urlMap_no_uppercase_key (rows : List Row) (t : String)
    (h : strings_ToLower t ≠ t) : urlMap rows t = none := by
  have hfil : (List.filterMap validEntry rows).filter (fun e => e.1 = t) = [] := by
    rw [List.filter_eq_nil_iff]
    intro e he
    simp only [decide_eq_true_eq]
    intro het
    rcases List.mem_filterMap.mp he with ⟨row, _, hrow⟩
    have := validEntry_key_lower row e hrow
    rw [het] at this
    exact h this
  have hlast : lastValidDest rows t = none := by
    unfold lastValidDest
    rw [hfil]
    rfl
  unfold urlMap
  rw [foldl_processRow_eq, hlast]
  rfl

/-- C10 amended: shortcut matching is case-sensitive, not
case-insensitive.  For every mapping and every request path that, after
stripping one leading `/`, exactly equals a stored shortcut key,
resolution finds that shortcut's destination (with no suffix appended);
and since shortcuts are lowercased on ingestion, a request path that is
not already all-lowercase is never itself a key of the built mapping —
so a path equal to a stored shortcut only up to letter case never
matches at its own (full) depth, as the counterexample shows for `GIT`
against the stored `git`. -/
theorem C10_case_sensitive_matching :
    (∀ (db : Store) (p : String) (u : URL) (q : Values),
        db (trimLeadingSlash p) = some u →
        (findRedirect db p q).1 = FindResult.found (prepRedirect u "" q)) ∧
    (∀ (rows : List Row) (t : String),
        strings_ToLower t ≠ t → urlMap rows t = none) := by
  constructor
  · intro db p u q h
    unfold findRedirect
    dsimp only
    cases hs : (splitOnChar '/' (trimLeadingSlash p)).reverse with
    | nil =>
      exact absurd (List.reverse_eq_nil_iff.mp hs)
        (splitOnCharAux_ne_nil '/' (trimLeadingSlash p).data [])
    | cons s revRest =>
      have hrev : (s :: revRest).reverse = splitOnChar '/' (trimLeadingSlash p) := by
        rw [← hs, List.reverse_reverse]
      have hq : strings_Join "/" ((s :: revRest).reverse) = trimLeadingSlash p := by
        rw [hrev, strings_Join_splitSlash]
      rw [findRedirectLoop_head_match db q s revRest [] u (by rw [hq]; exact h)]
      rfl
  · exact urlMap_no_uppercase_key

/-- Witness for the amended C10 at concrete inputs: the lowercase
request path `/git` resolves against the store holding `git`, and the
non-lowercase string `GIT` is not a key of the mapping ingested from a
`GIT` row. -/
theorem C10_case_sensitive_matching_witness :
    (findRedirect (updateStore emptyStore "git" ⟨"https", "github.com", "/denizyoldas", ""⟩)
        "/git" []).1
      = FindResult.found
          (prepRedirect ⟨"https", "github.com", "/denizyoldas", ""⟩ "" []) ∧
    urlMap [[Cell.str "GIT", Cell.str "https://github.com/denizyoldas"]] "GIT" = none :=
  ⟨C10_case_sensitive_matching.1
      (updateStore emptyStore "git" ⟨"https", "github.com", "/denizyoldas", ""⟩)
      "/git" ⟨"https", "github.com", "/denizyoldas", ""⟩ [] (by decide),
   C10_case_sensitive_matching.2
      [[Cell.str "GIT", Cell.str "https://github.com/denizyoldas"]] "GIT" (by decide)⟩
